import Mathlib

/-!
Verification development for the ANSI escape-sequence processor
(`src/backend/scripts/ansi_processor.py`).

The processor keeps a mutable character grid (`screen`), a cursor
position, and a standing grid width (`max_cols`).  It scans the input
for ANSI escape sequences, interprets them as cursor/erase commands,
writes literal characters into the grid, and finally flattens the grid
to text.

The shallow embedding below follows the Python source line by line:
Python lists become Lean `List`s, Python `int`s become `Int` (with
`Int.toNat` at the points where a value that is provably nonnegative is
used as an index or a length), and a Python `ValueError` raised by
`int(...)` becomes `Option.none`.
-/

namespace AnsiProc

/-- The mutable state of the `ANSIProcessor` class: `screen` is the list
of rows (each a list of single-character cells), `cursor_row`/`cursor_col`
the cursor, `max_cols` the standing width.  Cursor fields are `Int`
because the Python attributes are unbounded integers that the code
clamps with `max(0, _)`; the clamping is part of what we verify.
`max_rows` is initialised to 100 by `__init__` and never read afterwards;
it is carried along for faithfulness. -/
structure PState where
  screen : List (List Char)
  cursor_row : Int
  cursor_col : Int
  max_cols : Nat
  max_rows : Nat
deriving Repr, DecidableEq

/-- A row of `n` blank (space) cells: `[' '] * n`. -/
def blankRow (n : Nat) : List Char := List.replicate n ' '

/-- The state built by `ANSIProcessor.__init__`. -/
def initState : PState :=
  { screen := [], cursor_row := 0, cursor_col := 0, max_cols := 200, max_rows := 100 }

/-- In-place update of the row at index `i` (`self.screen[i]` mutation);
out-of-range indices leave the list unchanged (the Python code only
mutates rows whose index it has just ensured to be in range). -/
def modifyRow : List (List Char) → Nat → (List Char → List Char) → List (List Char)
  | [], _, _ => []
  | r :: rs, 0, f => f r :: rs
  | r :: rs, n + 1, f => r :: modifyRow rs n f

/-- One step of the widening loop: `screen_row.extend([' '] * (n - len(screen_row)))`
(Python `extend` with a nonpositive count appends nothing, matching
truncated subtraction). -/
def padTo (n : Nat) (row : List Char) : List Char :=
  row ++ blankRow (n - row.length)

/-- Method `ensure_screen_size(row, col)`: append blank full-width rows while
`len(screen) <= row`; if `col >= max_cols`, widen every row to
`new_cols = col + 50` and record the new width. -/
def ensure_screen_size (s : PState) (row col : Int) : PState :=
  let screen1 := s.screen ++
    List.replicate (row + 1 - (s.screen.length : Int)).toNat (blankRow s.max_cols)
  if (s.max_cols : Int) ≤ col then
    let new_cols := (col + 50).toNat
    { s with screen := screen1.map (padTo new_cols),
             max_cols := new_cols }
  else
    { s with screen := screen1 }

/-- Method `set_cursor(row, col)`: clamp both coordinates to `≥ 0`, then grow
the grid to fit. -/
def set_cursor (s : PState) (row col : Int) : PState :=
  let s' := { s with cursor_row := max 0 row, cursor_col := max 0 col }
  ensure_screen_size s' s'.cursor_row s'.cursor_col

/-- Method `move_cursor_up(lines)`: `cursor_row = max(0, cursor_row - lines)`. -/
def move_cursor_up (s : PState) (lines : Int) : PState :=
  { s with cursor_row := max 0 (s.cursor_row - lines) }

/-- Method `move_cursor_down(lines)`: `cursor_row += lines`, then grow. -/
def move_cursor_down (s : PState) (lines : Int) : PState :=
  let s' := { s with cursor_row := s.cursor_row + lines }
  ensure_screen_size s' s'.cursor_row s'.cursor_col

/-- Method `move_cursor_forward(cols)`: `cursor_col += cols`, then grow. -/
def move_cursor_forward (s : PState) (cols : Int) : PState :=
  let s' := { s with cursor_col := s.cursor_col + cols }
  ensure_screen_size s' s'.cursor_row s'.cursor_col

/-- Method `move_cursor_backward(cols)`: `cursor_col = max(0, cursor_col - cols)`. -/
def move_cursor_backward (s : PState) (cols : Int) : PState :=
  { s with cursor_col := max 0 (s.cursor_col - cols) }

/-- Method `clear_line(mode)`: blank cells of the current row.  Mode 0 blanks
from the cursor column to the end of the row, mode 1 from column 0
through `min(cursor_col + 1, len(row))` exclusive, mode 2 the whole row;
other modes do nothing, and nothing happens when
`cursor_row >= len(screen)`.  (In every state the program reaches,
`cursor_row ≥ 0`, so the Python `<` guard and list index coincide with
the `Int.toNat` reading used here.) -/
def clear_line (s : PState) (mode : Int) : PState :=
  if s.cursor_row < (s.screen.length : Int) then
    { s with screen := modifyRow s.screen s.cursor_row.toNat (fun row =>
        if mode = 0 then
          row.take s.cursor_col.toNat ++ blankRow (row.length - s.cursor_col.toNat)
        else if mode = 1 then
          blankRow (min (s.cursor_col.toNat + 1) row.length) ++
            row.drop (min (s.cursor_col.toNat + 1) row.length)
        else if mode = 2 then
          blankRow row.length
        else row) }
  else s

/-- Method `clear_screen(mode)`: only mode 2 is implemented — grid reset to
empty, cursor to (0,0); every other mode is a no-op. -/
def clear_screen (s : PState) (mode : Int) : PState :=
  if mode = 2 then { s with screen := [], cursor_row := 0, cursor_col := 0 } else s

/-- One character of `insert_text`: newline, carriage return and tab
move the cursor (growing the grid where the source does); a character
with code ≥ 32 is stored at the cursor cell and advances the column;
any other control character is ignored.  Python `//` is floor division,
hence `Int.fdiv`. -/
def insert_char (s : PState) (ch : Char) : PState :=
  if ch = '\n' then
    let s' := { s with cursor_row := s.cursor_row + 1, cursor_col := 0 }
    ensure_screen_size s' s'.cursor_row s'.cursor_col
  else if ch = '\r' then
    { s with cursor_col := 0 }
  else if ch = '\t' then
    let s' := { s with cursor_col := (Int.fdiv s.cursor_col 8 + 1) * 8 }
    ensure_screen_size s' s'.cursor_row s'.cursor_col
  else if 32 ≤ ch.toNat then
    let s' := ensure_screen_size s s.cursor_row s.cursor_col
    { s' with
        screen := modifyRow s'.screen s'.cursor_row.toNat
          (fun r => r.set s'.cursor_col.toNat ch),
        cursor_col := s'.cursor_col + 1 }
  else s

/-- Method `insert_text(text)`: apply `insert_char` to each character in order. -/
def insert_text (s : PState) (text : List Char) : PState :=
  text.foldl insert_char s

/-- Value of a Python decimal digit string. -/
def digitsToNat (cs : List Char) : Nat :=
  cs.foldl (fun n c => n * 10 + (c.toNat - 48)) 0

/-- Python `int(str)` restricted to the strings this program can pass it:
the dispatcher only ever feeds `int` strings over the alphabet
`0-9`, `;`, `?` (the characters the scanner's parameter classes admit),
and on that alphabet Python `int` succeeds exactly on nonempty
all-digit strings, returning their decimal value. -/
def pyInt (cs : List Char) : Option Int :=
  if cs ≠ [] ∧ cs.all Char.isDigit then some (digitsToNat cs : Int) else none

/-- Python `str.split(';')`: greedy split on every `';'`; the empty
string yields `[""]`. -/
def splitSemi : List Char → List (List Char)
  | [] => [[]]
  | c :: rest =>
    match splitSemi rest with
    | [] => [[]]
    | g :: gs => if c = ';' then [] :: g :: gs else (c :: g) :: gs

/-- Method `process_escape_sequence(sequence)`, where `sequence` is the matched
token minus the leading ESC byte.  A `ValueError` raised by `int(...)`
on a malformed parameter becomes `none`; every successfully dispatched
or ignored sequence returns the updated state. -/
def process_escape_sequence (s : PState) (sequence : List Char) : Option PState :=
  match sequence with
  | '[' :: csi =>
    if csi.getLast? = some 'H' ∨ csi.getLast? = some 'f' then
      let body := csi.dropLast
      let params := if body = [] then [['1'], ['1']] else splitSemi body
      let p0 := params.getD 0 []
      let p1 := params.getD 1 []
      match pyInt (if p0 = [] then ['1'] else p0),
            pyInt (if 1 < params.length ∧ p1 ≠ [] then p1 else ['1']) with
      | some row, some col => some (set_cursor s (row - 1) (col - 1))
      | _, _ => none
    else if csi.getLast? = some 'A' then
      match (if csi.dropLast = [] then some 1 else pyInt csi.dropLast) with
      | some lines => some (move_cursor_up s lines)
      | none => none
    else if csi.getLast? = some 'B' then
      match (if csi.dropLast = [] then some 1 else pyInt csi.dropLast) with
      | some lines => some (move_cursor_down s lines)
      | none => none
    else if csi.getLast? = some 'C' then
      match (if csi.dropLast = [] then some 1 else pyInt csi.dropLast) with
      | some cols => some (move_cursor_forward s cols)
      | none => none
    else if csi.getLast? = some 'D' then
      match (if csi.dropLast = [] then some 1 else pyInt csi.dropLast) with
      | some cols => some (move_cursor_backward s cols)
      | none => none
    else if csi.getLast? = some 'G' then
      match (if csi.dropLast = [] then some 1 else pyInt csi.dropLast) with
      | some col =>
        let s' := { s with cursor_col := max 0 (col - 1) }
        some (ensure_screen_size s' s'.cursor_row s'.cursor_col)
      | none => none
    else if csi.getLast? = some 'K' then
      match (if csi.dropLast = [] then some 0 else pyInt csi.dropLast) with
      | some mode => some (clear_line s mode)
      | none => none
    else if csi.getLast? = some 'J' then
      match (if csi.dropLast = [] then some 0 else pyInt csi.dropLast) with
      | some mode => some (clear_screen s mode)
      | none => none
    else if csi.getLast? = some 'm' then
      some s
    else
      some s
  | _ => some s

/-- Characters admitted inside a CSI parameter run: `[0-9;]`. -/
def isCsiParam (c : Char) : Bool := c.isDigit || c = ';'

/-- Python `re.match` of the scanner pattern
`\x1b\[[0-9;]*[a-zA-Z]|\x1b\[[?][0-9;]*[a-zA-Z]|\x1b\[[?][0-9]*[hl]|\x1b\([AB0]`
at the start of the input, returning the matched token.  The character
classes `[0-9;]` and `[a-zA-Z]` are disjoint, so the greedy star never
backtracks: each CSI alternative matches the maximal parameter run and
then requires a single ASCII letter.  The third alternative only fires
where the second already matches, so it contributes nothing. -/
def matchAnsi : List Char → Option (List Char)
  | '\x1b' :: '[' :: '?' :: rest =>
    match rest.dropWhile isCsiParam with
    | c :: _ =>
      if c.isAlpha then some ('\x1b' :: '[' :: '?' :: (rest.takeWhile isCsiParam ++ [c]))
      else none
    | [] => none
  | '\x1b' :: '[' :: rest =>
    match rest.dropWhile isCsiParam with
    | c :: _ =>
      if c.isAlpha then some ('\x1b' :: '[' :: (rest.takeWhile isCsiParam ++ [c]))
      else none
    | [] => none
  | '\x1b' :: '(' :: c :: _ =>
    if c = 'A' ∨ c = 'B' ∨ c = '0' then some ['\x1b', '(', c] else none
  | _ => none

/-- The scanning loop of `process_content`, with an explicit structural
bound (`fuel`) so the definition computes by `rfl`/`decide`; each
iteration consumes at least one character, so a bound of
`content.length` is always enough (`processLoop` below supplies it).
A match advances past the whole token and dispatches it (a `none` from
the dispatcher — a Python exception — aborts the run); an ESC byte with
no match, or trailing, is skipped; any other character is inserted. -/
def processLoopAux : Nat → PState → List Char → Option PState
  | _, s, [] => some s
  | 0, s, _ :: _ => some s
  | fuel + 1, s, c :: rest =>
    if c = '\x1b' ∧ rest ≠ [] then
      match matchAnsi (c :: rest) with
      | some seq =>
        match process_escape_sequence s (seq.drop 1) with
        | some s' => processLoopAux fuel s' (rest.drop (seq.length - 1))
        | none => none
      | none => processLoopAux fuel s rest
    else if c = '\x1b' then
      processLoopAux fuel s rest
    else
      processLoopAux fuel (insert_char s c) rest

/-- The scanning loop of `process_content` over the whole input. -/
def processLoop (s : PState) (content : List Char) : Option PState :=
  processLoopAux content.length s content

/-- Whitespace for Python `str.rstrip()` (`str.isspace`): the code
points 0x09-0x0D, 0x1C-0x20, 0x85, 0xA0, 0x1680, 0x2000-0x200A, 0x2028,
0x2029, 0x202F, 0x205F and 0x3000. -/
def pyIsSpace (c : Char) : Bool :=
  decide ((9 ≤ c.toNat ∧ c.toNat ≤ 13) ∨ (28 ≤ c.toNat ∧ c.toNat ≤ 32) ∨
    c.toNat = 133 ∨ c.toNat = 160 ∨ c.toNat = 5760 ∨
    (8192 ≤ c.toNat ∧ c.toNat ≤ 8202) ∨ c.toNat = 8232 ∨ c.toNat = 8233 ∨
    c.toNat = 8239 ∨ c.toNat = 8287 ∨ c.toNat = 12288)

/-- Python `line.rstrip()`: drop trailing whitespace characters. -/
def rstrip (cs : List Char) : List Char :=
  (cs.reverse.dropWhile pyIsSpace).reverse

/-- The first loop of `get_final_text`: index of the last row holding a
non-space cell, `-1` when there is none. -/
def lastContentRow (screen : List (List Char)) : Int :=
  (List.range screen.length).foldl
    (fun acc i => if (screen.getD i []).any (fun c => c ≠ ' ') then (i : Int) else acc)
    (-1)

/-- The inner scan of `get_final_text`: index of the last non-space cell
of a row, `-1` when the row is all spaces (Python scans from the right
and breaks at the first hit). -/
def lastNonSpace (row : List Char) : Int :=
  match row.reverse.findIdx? (fun c => c ≠ ' ') with
  | some k => (row.length : Int) - 1 - (k : Int)
  | none => -1

/-- The line a single row contributes: cells 0 through the last
non-space cell (empty when the row is blank), right-stripped. -/
def lineOfRow (row : List Char) : List Char :=
  let lastChar := lastNonSpace row
  rstrip (if 0 ≤ lastChar then row.take (lastChar.toNat + 1) else [])

/-- The trailing `while result_lines and not result_lines[-1]: pop()`:
drop trailing empty lines. -/
def dropTrailingEmpties (ls : List (List Char)) : List (List Char) :=
  (ls.reverse.dropWhile List.isEmpty).reverse

/-- Method `get_final_text()`: one line per row up to the last content row
(rows are re-checked against the screen length, as in the source), then
trailing empty lines are removed and the rest joined with newlines. -/
def get_final_text (s : PState) : List Char :=
  let result_lines := (List.range (lastContentRow s.screen + 1).toNat).filterMap
    (fun row_idx =>
      if row_idx < s.screen.length then some (lineOfRow (s.screen.getD row_idx []))
      else none)
  List.intercalate ['\n'] (dropTrailingEmpties result_lines)

/-- The Python method `get_final_text` read as an explicit state
transformer: its body only reads `self.screen` (building local
`result_lines`), assigning to no attribute, so the state component it
returns is the state it received. -/
def get_final_text_st (s : PState) : PState × List Char :=
  (s, get_final_text s)

/-- Method `process_content(content)`: run the scanning loop, then flatten.
The Python method returns only the string; the mutated processor state
is `processLoop` itself. -/
def process_content (s : PState) (content : List Char) : Option (List Char) :=
  (processLoop s content).map get_final_text

/-- Whole-program run: a fresh `ANSIProcessor()` processing `content`. -/
def runOut (content : List Char) : Option (List Char) :=
  process_content initState content

/-- Cell at 0-based (i, j), with the blank sentinel as default. -/
def cellAt (s : PState) (i j : Nat) : Char :=
  (s.screen.getD i []).getD j ' '

/-! ### State invariants -/

/-- Every row of the grid has exactly the standing width `max_cols`. -/
def RowsOk (s : PState) : Prop := ∀ row ∈ s.screen, row.length = s.max_cols

/-- Every stored cell has code point ≥ 32 (space is code 32). -/
def CellsOk (s : PState) : Prop := ∀ row ∈ s.screen, ∀ c ∈ row, 32 ≤ c.toNat

/-- Both cursor coordinates are nonnegative. -/
def CursorOk (s : PState) : Prop := 0 ≤ s.cursor_row ∧ 0 ≤ s.cursor_col

/-- The reachable-state invariant of the processor. -/
def Inv (s : PState) : Prop := RowsOk s ∧ CellsOk s ∧ CursorOk s ∧ 0 < s.max_cols

lemma inv_initState : Inv initState := by
  refine ⟨?_, ?_, ⟨le_refl _, le_refl _⟩, by norm_num [initState]⟩ <;>
    simp [RowsOk, CellsOk, initState]

/-! ### Lemmas about `ensure_screen_size` -/

lemma ensure_cursor_row (s : PState) (r c : Int) :
    (ensure_screen_size s r c).cursor_row = s.cursor_row := by
  simp only [ensure_screen_size]; split <;> rfl

lemma ensure_cursor_col (s : PState) (r c : Int) :
    (ensure_screen_size s r c).cursor_col = s.cursor_col := by
  simp only [ensure_screen_size]; split <;> rfl

lemma ensure_max_cols_le (s : PState) (r c : Int) :
    s.max_cols ≤ (ensure_screen_size s r c).max_cols := by
  simp only [ensure_screen_size]
  split
  · simp only []
    omega
  · exact le_refl _

lemma ensure_screen_length (s : PState) (r c : Int) :
    (ensure_screen_size s r c).screen.length
      = max s.screen.length (r + 1).toNat := by
  simp only [ensure_screen_size]
  split <;> simp [blankRow] <;> omega

lemma ensure_row_lt_length (s : PState) (r c : Int) (hr : 0 ≤ r) :
    r.toNat < (ensure_screen_size s r c).screen.length := by
  rw [ensure_screen_length]
  omega

lemma ensure_col_lt_max_cols (s : PState) (r c : Int) (hc : 0 ≤ c) :
    c.toNat < (ensure_screen_size s r c).max_cols := by
  simp only [ensure_screen_size]
  split <;> simp only [] <;> omega

/-! ### `List.getD` helper lemmas -/

lemma getD_append_left {α : Type} (l l' : List α) (i : Nat) (d : α)
    (h : i < l.length) : (l ++ l').getD i d = l.getD i d := by
  simp [List.getD, List.getElem?_append_left h]

lemma getD_append_right {α : Type} (l l' : List α) (i : Nat) (d : α)
    (h : l.length ≤ i) : (l ++ l').getD i d = l'.getD (i - l.length) d := by
  simp [List.getD, List.getElem?_append_right h]

lemma getD_replicate {α : Type} (n i : Nat) (a d : α) (h : i < n) :
    (List.replicate n a).getD i d = a := by
  simp [List.getD, List.getElem?_replicate, h]

lemma getD_of_le {α : Type} (l : List α) (i : Nat) (d : α)
    (h : l.length ≤ i) : l.getD i d = d := by
  simp [List.getD, List.getElem?_eq_none h]

lemma getD_replicate_any {α : Type} (n i : Nat) (a : α) :
    (List.replicate n a).getD i a = a := by
  by_cases h : i < n
  · exact getD_replicate n i a a h
  · exact getD_of_le _ i a (by simp; omega)

lemma getD_map_rows_lt (l : List (List Char)) (f : List Char → List Char)
    (i : Nat) (h : i < l.length) : (l.map f).getD i [] = f (l.getD i []) := by
  have h2 : i < (l.map f).length := by simpa using h
  simp [List.getD, List.getElem?_eq_getElem h, List.getElem?_eq_getElem h2,
    List.getElem_map]

lemma padTo_getD (n : Nat) (row : List Char) (j : Nat) :
    (padTo n row).getD j ' ' = row.getD j ' ' := by
  by_cases hj : j < row.length
  · exact getD_append_left _ _ _ _ hj
  · rw [padTo, getD_append_right _ _ _ _ (Nat.le_of_not_lt hj),
        getD_of_le _ j ' ' (Nat.le_of_not_lt hj)]
    exact getD_replicate_any _ (j - row.length) ' '

lemma padTo_length (n : Nat) (row : List Char) :
    (padTo n row).length = max row.length n := by
  simp [padTo, blankRow]
  omega

/-! ### Structure of the grown grid -/

lemma rowsOk_ensure (s : PState) (r c : Int) (h : RowsOk s) :
    RowsOk (ensure_screen_size s r c) := by
  simp only [ensure_screen_size, RowsOk] at h ⊢
  split
  · next hcol =>
    intro row hrow
    simp only [List.mem_map] at hrow
    obtain ⟨row₀, h₀, rfl⟩ := hrow
    have hlen : row₀.length = s.max_cols := by
      rcases List.mem_append.1 h₀ with h₁ | h₁
      · exact h row₀ h₁
      · rw [List.eq_of_mem_replicate h₁]
        simp [blankRow]
    rw [padTo_length, hlen]
    show max s.max_cols (c + 50).toNat = (c + 50).toNat
    omega
  · intro row hrow
    rcases List.mem_append.1 hrow with h₁ | h₁
    · exact h row h₁
    · rw [List.eq_of_mem_replicate h₁]
      simp [blankRow]

lemma cellsOk_ensure (s : PState) (r c : Int) (h : CellsOk s) :
    CellsOk (ensure_screen_size s r c) := by
  have hblank : ∀ n : Nat, ∀ ch ∈ blankRow n, 32 ≤ ch.toNat := by
    intro n ch hch
    rw [List.eq_of_mem_replicate hch]
    exact le_refl _
  have happ : ∀ row ∈ s.screen ++
      List.replicate (r + 1 - (s.screen.length : Int)).toNat (blankRow s.max_cols),
      ∀ ch ∈ row, 32 ≤ ch.toNat := by
    intro row hrow ch hch
    rcases List.mem_append.1 hrow with h₁ | h₁
    · exact h row h₁ ch hch
    · rw [List.eq_of_mem_replicate h₁] at hch
      exact hblank _ ch hch
  simp only [ensure_screen_size, CellsOk] at h ⊢
  split
  · intro row hrow
    simp only [List.mem_map] at hrow
    obtain ⟨row₀, h₀, rfl⟩ := hrow
    intro ch hch
    rcases List.mem_append.1 hch with h₂ | h₂
    · exact happ row₀ h₀ ch h₂
    · exact hblank _ ch h₂
  · exact happ

lemma inv_ensure (s : PState) (r c : Int) (h : Inv s) :
    Inv (ensure_screen_size s r c) := by
  obtain ⟨h₁, h₂, h₃, h₄⟩ := h
  refine ⟨rowsOk_ensure s r c h₁, cellsOk_ensure s r c h₂, ?_, ?_⟩
  · rw [CursorOk, ensure_cursor_row, ensure_cursor_col]
    exact h₃
  · calc 0 < s.max_cols := h₄
      _ ≤ _ := ensure_max_cols_le s r c

/-- Growth never touches an existing cell, and every cell position that
was outside the old grid reads as a space. -/
lemma ensure_cellAt (s : PState) (r c : Int) (i j : Nat) :
    cellAt (ensure_screen_size s r c) i j
      = if i < s.screen.length ∧ j < (s.screen.getD i []).length
        then cellAt s i j else ' ' := by
  have hrow : ∀ k : Nat,
      (s.screen ++ List.replicate k (blankRow s.max_cols)).getD i []
      = if i < s.screen.length then s.screen.getD i []
        else if i < s.screen.length + k then blankRow s.max_cols else [] := by
    intro k
    by_cases hi : i < s.screen.length
    · rw [getD_append_left _ _ _ _ hi, if_pos hi]
    · rw [getD_append_right _ _ _ _ (Nat.le_of_not_lt hi), if_neg hi]
      by_cases hik : i < s.screen.length + k
      · rw [if_pos hik]
        exact getD_replicate k (i - s.screen.length) _ _ (by omega)
      · rw [if_neg hik]
        exact getD_of_le _ _ _ (by simp; omega)
  have hout : ∀ row : List Char, ¬ j < row.length → row.getD j ' ' = ' ' :=
    fun row hj => getD_of_le _ _ _ (Nat.le_of_not_lt hj)
  simp only [cellAt, ensure_screen_size]
  split
  · by_cases hin : i < s.screen.length + (r + 1 - (s.screen.length : Int)).toNat
    · rw [getD_map_rows_lt _ _ i (by simp [blankRow]; omega), hrow]
      by_cases hi : i < s.screen.length
      · rw [if_pos hi]
        by_cases hj : j < (s.screen.getD i []).length
        · rw [if_pos ⟨hi, hj⟩, padTo_getD _ _ _]
        · rw [if_neg (fun hand => hj hand.2), padTo_getD _ _ _, hout _ hj]
      · rw [if_neg hi, if_pos hin,
            if_neg (fun hand : i < s.screen.length ∧ _ => hi hand.1), padTo_getD _ _ _]
        exact getD_replicate_any _ _ _
    · have hlen : ((s.screen ++ List.replicate
          (r + 1 - (s.screen.length : Int)).toNat (blankRow s.max_cols)).map
          (padTo (c + 50).toNat)).length ≤ i := by
        simp
        omega
      rw [getD_of_le _ _ _ hlen,
          if_neg (fun hand : i < s.screen.length ∧ _ => hin
            (by omega : i < s.screen.length +
              (r + 1 - (s.screen.length : Int)).toNat))]
      rfl
  · rw [hrow]
    by_cases hi : i < s.screen.length
    · rw [if_pos hi]
      by_cases hj : j < (s.screen.getD i []).length
      · rw [if_pos ⟨hi, hj⟩]
      · rw [if_neg (fun hand => hj hand.2), hout _ hj]
    · rw [if_neg hi, if_neg (fun hand : i < s.screen.length ∧ _ => hi hand.1)]
      split
      · exact getD_replicate_any _ _ _
      · rfl

/-! ### `modifyRow` lemmas -/

lemma modifyRow_length (l : List (List Char)) (i : Nat)
    (f : List Char → List Char) : (modifyRow l i f).length = l.length := by
  induction l generalizing i with
  | nil => rfl
  | cons r rs ih =>
    cases i with
    | zero => rfl
    | succ n => simp [modifyRow, ih]

lemma modifyRow_pres (P : List Char → Prop) (l : List (List Char)) (i : Nat)
    (f : List Char → List Char) (hl : ∀ r ∈ l, P r)
    (hf : ∀ r ∈ l, P (f r)) : ∀ r ∈ modifyRow l i f, P r := by
  induction l generalizing i with
  | nil =>
    intro r hr
    cases hr
  | cons r rs ih =>
    cases i with
    | zero =>
      intro x hx
      rcases List.mem_cons.1 hx with rfl | hx
      · exact hf r (List.mem_cons_self r rs)
      · exact hl x (List.mem_cons_of_mem _ hx)
    | succ n =>
      intro x hx
      rcases List.mem_cons.1 hx with rfl | hx
      · exact hl x (List.mem_cons_self x rs)
      · exact ih n (fun y hy => hl y (List.mem_cons_of_mem _ hy))
          (fun y hy => hf y (List.mem_cons_of_mem _ hy)) x hx

lemma modifyRow_getD_self (l : List (List Char)) (i : Nat)
    (f : List Char → List Char) (h : i < l.length) :
    (modifyRow l i f).getD i [] = f (l.getD i []) := by
  induction l generalizing i with
  | nil => cases h
  | cons r rs ih =>
    cases i with
    | zero => rfl
    | succ n => exact ih n (by simpa using h)

lemma modifyRow_getD_ne (l : List (List Char)) (i j : Nat)
    (f : List Char → List Char) (h : j ≠ i) :
    (modifyRow l i f).getD j [] = l.getD j [] := by
  induction l generalizing i j with
  | nil => rfl
  | cons r rs ih =>
    cases i with
    | zero =>
      cases j with
      | zero => exact absurd rfl h
      | succ m => rfl
    | succ n =>
      cases j with
      | zero => rfl
      | succ m => exact ih n m (fun hc => h (by rw [hc]))

/-! ### Invariant preservation, operation by operation -/

lemma inv_set_cursor (s : PState) (r c : Int) (h : Inv s) :
    Inv (set_cursor s r c) := by
  apply inv_ensure
  obtain ⟨h₁, h₂, h₃, h₄⟩ := h
  exact ⟨h₁, h₂, ⟨le_max_left 0 r, le_max_left 0 c⟩, h₄⟩

lemma inv_move_cursor_up (s : PState) (n : Int) (h : Inv s) :
    Inv (move_cursor_up s n) := by
  obtain ⟨h₁, h₂, h₃, h₄⟩ := h
  exact ⟨h₁, h₂, ⟨le_max_left _ _, h₃.2⟩, h₄⟩

lemma inv_move_cursor_down (s : PState) (n : Int) (hn : 0 ≤ n) (h : Inv s) :
    Inv (move_cursor_down s n) := by
  apply inv_ensure
  obtain ⟨h₁, h₂, ⟨hr, hc⟩, h₄⟩ := h
  refine ⟨h₁, h₂, ⟨?_, hc⟩, h₄⟩
  show 0 ≤ s.cursor_row + n
  omega

lemma inv_move_cursor_forward (s : PState) (n : Int) (hn : 0 ≤ n) (h : Inv s) :
    Inv (move_cursor_forward s n) := by
  apply inv_ensure
  obtain ⟨h₁, h₂, ⟨hr, hc⟩, h₄⟩ := h
  refine ⟨h₁, h₂, ⟨hr, ?_⟩, h₄⟩
  show 0 ≤ s.cursor_col + n
  omega

lemma inv_move_cursor_backward (s : PState) (n : Int) (h : Inv s) :
    Inv (move_cursor_backward s n) := by
  obtain ⟨h₁, h₂, h₃, h₄⟩ := h
  exact ⟨h₁, h₂, ⟨h₃.1, le_max_left _ _⟩, h₄⟩

lemma clear_line_body_length (s : PState) (mode : Int) (row : List Char) :
    ((fun row : List Char =>
        if mode = 0 then
          row.take s.cursor_col.toNat ++ blankRow (row.length - s.cursor_col.toNat)
        else if mode = 1 then
          blankRow (min (s.cursor_col.toNat + 1) row.length) ++
            row.drop (min (s.cursor_col.toNat + 1) row.length)
        else if mode = 2 then
          blankRow row.length
        else row) row).length = row.length := by
  split
  · simp [blankRow]
    omega
  · split
    · simp [blankRow]
    · split
      · simp [blankRow]
      · rfl

lemma clear_line_body_cells (s : PState) (mode : Int) (row : List Char)
    (h : ∀ c ∈ row, 32 ≤ c.toNat) :
    ∀ c ∈ (fun row : List Char =>
        if mode = 0 then
          row.take s.cursor_col.toNat ++ blankRow (row.length - s.cursor_col.toNat)
        else if mode = 1 then
          blankRow (min (s.cursor_col.toNat + 1) row.length) ++
            row.drop (min (s.cursor_col.toNat + 1) row.length)
        else if mode = 2 then
          blankRow row.length
        else row) row, 32 ≤ c.toNat := by
  have hblank : ∀ n : Nat, ∀ c ∈ blankRow n, 32 ≤ c.toNat := by
    intro n c hc
    rw [List.eq_of_mem_replicate hc]
    exact le_refl _
  intro c hc
  simp only [] at hc
  split at hc
  · rcases List.mem_append.1 hc with h₁ | h₁
    · exact h c (List.mem_of_mem_take h₁)
    · exact hblank _ c h₁
  · split at hc
    · rcases List.mem_append.1 hc with h₁ | h₁
      · exact hblank _ c h₁
      · exact h c (List.mem_of_mem_drop h₁)
    · split at hc
      · exact hblank _ c hc
      · exact h c hc

lemma inv_clear_line (s : PState) (mode : Int) (h : Inv s) :
    Inv (clear_line s mode) := by
  obtain ⟨h₁, h₂, h₃, h₄⟩ := h
  rw [clear_line]
  split
  · refine ⟨?_, ?_, h₃, h₄⟩
    · intro row hrow
      refine modifyRow_pres (fun r => r.length = s.max_cols) _ _ _ h₁ ?_ row hrow
      intro r hr
      rw [clear_line_body_length s mode r]
      exact h₁ r hr
    · intro row hrow
      refine modifyRow_pres (fun r => ∀ c ∈ r, 32 ≤ c.toNat) _ _ _ h₂ ?_ row hrow
      intro r hr
      exact clear_line_body_cells s mode r (h₂ r hr)
  · exact ⟨h₁, h₂, h₃, h₄⟩

lemma inv_clear_screen (s : PState) (mode : Int) (h : Inv s) :
    Inv (clear_screen s mode) := by
  obtain ⟨h₁, h₂, h₃, h₄⟩ := h
  rw [clear_screen]
  split
  · refine ⟨?_, ?_, ⟨le_refl 0, le_refl 0⟩, h₄⟩ <;> intro row hrow <;> cases hrow
  · exact ⟨h₁, h₂, h₃, h₄⟩

lemma inv_insert_char (s : PState) (ch : Char) (h : Inv s) :
    Inv (insert_char s ch) := by
  rw [insert_char]
  obtain ⟨h₁, h₂, h₃, h₄⟩ := h
  split
  · apply inv_ensure
    refine ⟨h₁, h₂, ⟨?_, le_refl 0⟩, h₄⟩
    show 0 ≤ s.cursor_row + 1
    have := h₃.1
    omega
  · split
    · exact ⟨h₁, h₂, ⟨h₃.1, le_refl 0⟩, h₄⟩
    · split
      · apply inv_ensure
        refine ⟨h₁, h₂, ⟨h₃.1, ?_⟩, h₄⟩
        show 0 ≤ (Int.fdiv s.cursor_col 8 + 1) * 8
        have : 0 ≤ Int.fdiv s.cursor_col 8 := Int.fdiv_nonneg h₃.2 (by norm_num)
        omega
      · split
        · next hge =>
          have hinv' : Inv (ensure_screen_size s s.cursor_row s.cursor_col) :=
            inv_ensure s _ _ ⟨h₁, h₂, h₃, h₄⟩
          obtain ⟨g₁, g₂, ⟨g3r, g3c⟩, g₄⟩ := hinv'
          refine ⟨?_, ?_, ⟨g3r, ?_⟩, g₄⟩
          rotate_right
          · show 0 ≤ (ensure_screen_size s s.cursor_row s.cursor_col).cursor_col + 1
            omega
          · intro row hrow
            refine modifyRow_pres (fun r => r.length =
              (ensure_screen_size s s.cursor_row s.cursor_col).max_cols)
              _ _ _ g₁ ?_ row hrow
            intro r hr
            rw [List.length_set]
            exact g₁ r hr
          · intro row hrow
            refine modifyRow_pres (fun r => ∀ c ∈ r, 32 ≤ c.toNat) _ _ _ g₂ ?_ row hrow
            intro r hr c hc
            rcases List.mem_or_eq_of_mem_set hc with hc' | rfl
            · exact g₂ r hr c hc'
            · exact hge
        · exact ⟨h₁, h₂, h₃, h₄⟩

lemma pyInt_nonneg (cs : List Char) (n : Int) (h : pyInt cs = some n) : 0 ≤ n := by
  rw [pyInt] at h
  split at h
  · cases h
    exact Int.natCast_nonneg _
  · cases h

lemma if_pyInt_nonneg (b : Prop) [Decidable b] (d : Int) (hd : 0 ≤ d)
    (cs : List Char) (n : Int)
    (h : (if b then some d else pyInt cs) = some n) : 0 ≤ n := by
  split at h
  · cases h
    exact hd
  · exact pyInt_nonneg cs n h

lemma inv_process_escape (s s' : PState) (seq : List Char)
    (hinv : Inv s) (h : process_escape_sequence s seq = some s') : Inv s' := by
  rw [process_escape_sequence.eq_def] at h
  split at h
  all_goals try (cases h; exact hinv)
  · split at h
    · -- H / f
      simp only [] at h
      split at h
      all_goals try (cases h)
      exact inv_set_cursor s _ _ hinv
    · split at h
      · -- A
        split at h
        · next lines heq =>
          cases h
          exact inv_move_cursor_up s lines hinv
        · cases h
      · split at h
        · -- B
          split at h
          · next lines heq =>
            cases h
            exact inv_move_cursor_down s lines
              (if_pyInt_nonneg _ 1 (by norm_num) _ lines heq) hinv
          · cases h
        · split at h
          · -- C
            split at h
            · next cols heq =>
              cases h
              exact inv_move_cursor_forward s cols
                (if_pyInt_nonneg _ 1 (by norm_num) _ cols heq) hinv
            · cases h
          · split at h
            · -- D
              split at h
              · next cols heq =>
                cases h
                exact inv_move_cursor_backward s cols hinv
              · cases h
            · split at h
              · -- G
                split at h
                · next col heq =>
                  cases h
                  apply inv_ensure
                  obtain ⟨h₁, h₂, ⟨hr, hc⟩, h₄⟩ := hinv
                  exact ⟨h₁, h₂, ⟨hr, le_max_left _ _⟩, h₄⟩
                · cases h
              · split at h
                · -- K
                  split at h
                  · next mode heq =>
                    cases h
                    exact inv_clear_line s mode hinv
                  · cases h
                · split at h
                  · -- J
                    split at h
                    · next mode heq =>
                      cases h
                      exact inv_clear_screen s mode hinv
                    · cases h
                  · split at h
                    · -- m
                      cases h
                      exact hinv
                    · cases h
                      exact hinv

lemma inv_processLoopAux (fuel : Nat) :
    ∀ (s : PState) (content : List Char) (s' : PState),
      Inv s → processLoopAux fuel s content = some s' → Inv s' := by
  induction fuel with
  | zero =>
    intro s content s' hinv h
    cases content with
    | nil =>
      rw [processLoopAux] at h
      cases h
      exact hinv
    | cons c rest =>
      rw [processLoopAux] at h
      cases h
      exact hinv
  | succ fuel ih =>
    intro s content s' hinv h
    cases content with
    | nil =>
      rw [processLoopAux] at h
      cases h
      exact hinv
    | cons c rest =>
      rw [processLoopAux] at h
      split at h
      · split at h
        · split at h
          · next s'' heq =>
            exact ih _ _ _ (inv_process_escape s s'' _ hinv heq) h
          · cases h
        · exact ih _ _ _ hinv h
      · split at h
        · exact ih _ _ _ hinv h
        · exact ih _ _ _ (inv_insert_char s c hinv) h

lemma inv_processLoop (s : PState) (content : List Char) (s' : PState)
    (hinv : Inv s) (h : processLoop s content = some s') : Inv s' :=
  inv_processLoopAux content.length s content s' hinv h

/-! ### Character classes and scanner recognition -/

lemma uint32_le_toNat (a b : UInt32) : (a ≤ b) ↔ a.toNat ≤ b.toNat := Iff.rfl

lemma isAlpha_not_csiParam (c : Char) (h : c.isAlpha = true) :
    isCsiParam c = false := by
  rw [isCsiParam]
  revert h
  rw [Char.isAlpha, Char.isUpper, Char.isLower, Char.isDigit]
  simp only [Bool.or_eq_true, Bool.and_eq_true, decide_eq_true_eq,
    Bool.or_eq_false_iff, Bool.and_eq_false_iff, decide_eq_false_iff_not,
    Char.le_def, uint32_le_toNat, Char.ext_iff,
    show UInt32.toNat 48 = 48 from rfl, show UInt32.toNat 57 = 57 from rfl,
    show UInt32.toNat 65 = 65 from rfl, show UInt32.toNat 90 = 90 from rfl,
    show UInt32.toNat 97 = 97 from rfl, show UInt32.toNat 122 = 122 from rfl]
  intro h
  constructor
  · omega
  · intro hc
    have h59 : c.val.toNat = 59 := by rw [hc]; rfl
    omega

lemma takeWhile_all_append (p : Char → Bool) (xs ys : List Char)
    (h : ∀ x ∈ xs, p x = true) :
    (xs ++ ys).takeWhile p = xs ++ ys.takeWhile p := by
  induction xs with
  | nil => rfl
  | cons x xs ih =>
    simp only [List.cons_append, List.takeWhile_cons,
      h x (List.mem_cons_self x xs), if_true]
    rw [ih (fun y hy => h y (List.mem_cons_of_mem _ hy))]

lemma dropWhile_all_append (p : Char → Bool) (xs ys : List Char)
    (h : ∀ x ∈ xs, p x = true) :
    (xs ++ ys).dropWhile p = ys.dropWhile p := by
  induction xs with
  | nil => rfl
  | cons x xs ih =>
    simp only [List.cons_append, List.dropWhile_cons,
      h x (List.mem_cons_self x xs), if_true]
    exact ih (fun y hy => h y (List.mem_cons_of_mem _ hy))

/-- The scanner recognizes a plain CSI token `ESC [ params letter`
anywhere at the start of the remaining input and captures exactly the
token. -/
lemma matchAnsi_csi (body : List Char) (t : Char) (tail : List Char)
    (hbody : ∀ ch ∈ body, isCsiParam ch = true) (ht : t.isAlpha = true) :
    matchAnsi ('\x1b' :: '[' :: (body ++ t :: tail)) =
      some ('\x1b' :: '[' :: (body ++ [t])) := by
  have htp : isCsiParam t = false := isAlpha_not_csiParam t ht
  have hdrop : (body ++ t :: tail).dropWhile isCsiParam = t :: tail := by
    rw [dropWhile_all_append _ _ _ hbody, List.dropWhile_cons, htp]
    simp
  have htake : (body ++ t :: tail).takeWhile isCsiParam = body := by
    rw [takeWhile_all_append _ _ _ hbody, List.takeWhile_cons, htp]
    simp
  cases body with
  | nil =>
    have ht2 : t ≠ '?' := by
      intro hq
      rw [hq] at ht
      exact absurd ht (by decide)
    rw [matchAnsi.eq_def]
    split
    · rename_i h
      exact absurd (List.cons.inj (List.cons.inj (List.cons.inj h).2).2).1 ht2
    · rename_i h
      have hrest := (List.cons.inj (List.cons.inj h).2).2
      rw [← hrest, hdrop, htake]
      simp [ht]
    · rename_i h
      simp at h
    · rename_i hq hcsi htriv
      exact absurd rfl (hcsi ([] ++ t :: tail))
  | cons b bs =>
    have hb : isCsiParam b = true := hbody b (List.mem_cons_self b bs)
    have hb2 : b ≠ '?' := by
      intro hq
      rw [hq] at hb
      exact absurd hb (by decide)
    rw [matchAnsi.eq_def]
    split
    · rename_i h
      exact absurd (List.cons.inj (List.cons.inj (List.cons.inj h).2).2).1 hb2
    · rename_i h
      have hrest := (List.cons.inj (List.cons.inj h).2).2
      rw [← hrest, hdrop, htake]
      simp [ht]
    · rename_i h
      simp at h
    · rename_i hq hcsi htriv
      exact absurd rfl (hcsi ((b :: bs) ++ t :: tail))

/-- The scanner recognizes a private-mode CSI token `ESC [ ? params letter`
and captures exactly the token. -/
lemma matchAnsi_private (body : List Char) (t : Char) (tail : List Char)
    (hbody : ∀ ch ∈ body, isCsiParam ch = true) (ht : t.isAlpha = true) :
    matchAnsi ('\x1b' :: '[' :: '?' :: (body ++ t :: tail)) =
      some ('\x1b' :: '[' :: '?' :: (body ++ [t])) := by
  have htp : isCsiParam t = false := isAlpha_not_csiParam t ht
  have hdrop : (body ++ t :: tail).dropWhile isCsiParam = t :: tail := by
    rw [dropWhile_all_append _ _ _ hbody, List.dropWhile_cons, htp]
    simp
  have htake : (body ++ t :: tail).takeWhile isCsiParam = body := by
    rw [takeWhile_all_append _ _ _ hbody, List.takeWhile_cons, htp]
    simp
  rw [matchAnsi.eq_def]
  split
  · rename_i h
    have hrest := (List.cons.inj (List.cons.inj (List.cons.inj h).2).2).2
    rw [← hrest, hdrop, htake]
    simp [ht]
  · rename_i hne h
    exact (hne _ ((List.cons.inj (List.cons.inj h).2).2).symm).elim
  · rename_i h
    simp at h
  · rename_i hq hcsi htriv
    exact absurd rfl (hq (body ++ t :: tail))

/-! ### Branch equations for the dispatcher -/

lemma getLast?_cons_concat (x : Char) (l : List Char) (t : Char) :
    (x :: (l ++ [t])).getLast? = some t := by
  rw [← List.cons_append, List.getLast?_concat]

lemma dropLast_cons_concat (x : Char) (l : List Char) (t : Char) :
    (x :: (l ++ [t])).dropLast = x :: l := by
  rw [← List.cons_append, List.dropLast_concat]

lemma splitSemi_ne_nil (l : List Char) : splitSemi l ≠ [] := by
  cases l with
  | nil => simp [splitSemi]
  | cons c rest =>
    rw [splitSemi]
    split
    · simp
    · split <;> simp

lemma pyInt_qmark (l : List Char) : pyInt ('?' :: l) = none := by
  rw [pyInt, if_neg]
  rintro ⟨-, hall⟩
  rw [List.all_cons, Bool.and_eq_true] at hall
  exact absurd hall.1 (by decide)

lemma pes_Hf (s : PState) (csi : List Char)
    (h : csi.getLast? = some 'H' ∨ csi.getLast? = some 'f') :
    process_escape_sequence s ('[' :: csi) =
      (let body := csi.dropLast
       let params := if body = [] then [['1'], ['1']] else splitSemi body
       let p0 := params.getD 0 []
       let p1 := params.getD 1 []
       match pyInt (if p0 = [] then ['1'] else p0),
             pyInt (if 1 < params.length ∧ p1 ≠ [] then p1 else ['1']) with
       | some row, some col => some (set_cursor s (row - 1) (col - 1))
       | _, _ => none) := by
  rw [process_escape_sequence, if_pos h]

/-- Variant of `pes_Hf` with the local bindings expanded, convenient for rewriting. -/
lemma pes_Hf_expanded (s : PState) (csi : List Char)
    (h : csi.getLast? = some 'H' ∨ csi.getLast? = some 'f') :
    process_escape_sequence s ('[' :: csi) =
      match pyInt (if (if csi.dropLast = [] then [['1'], ['1']]
                       else splitSemi csi.dropLast).getD 0 [] = []
                   then ['1']
                   else (if csi.dropLast = [] then [['1'], ['1']]
                         else splitSemi csi.dropLast).getD 0 []),
            pyInt (if 1 < (if csi.dropLast = [] then [['1'], ['1']]
                           else splitSemi csi.dropLast).length ∧
                      (if csi.dropLast = [] then [['1'], ['1']]
                       else splitSemi csi.dropLast).getD 1 [] ≠ []
                   then (if csi.dropLast = [] then [['1'], ['1']]
                         else splitSemi csi.dropLast).getD 1 []
                   else ['1']) with
      | some row, some col => some (set_cursor s (row - 1) (col - 1))
      | _, _ => none := by
  rw [process_escape_sequence, if_pos h]

lemma match_none_left (s : PState) (y : Option Int) :
    (match (none : Option Int), y with
     | some row, some col => some (set_cursor s (row - 1) (col - 1))
     | _, _ => none) = none := by
  rcases y with _ | v <;> rfl

lemma pes_A (s : PState) (csi : List Char) (h : csi.getLast? = some 'A') :
    process_escape_sequence s ('[' :: csi) =
      match (if csi.dropLast = [] then some 1 else pyInt csi.dropLast) with
      | some n => some (move_cursor_up s n)
      | none => none := by
  rw [process_escape_sequence, h, if_neg (by decide), if_pos rfl]

lemma pes_B (s : PState) (csi : List Char) (h : csi.getLast? = some 'B') :
    process_escape_sequence s ('[' :: csi) =
      match (if csi.dropLast = [] then some 1 else pyInt csi.dropLast) with
      | some n => some (move_cursor_down s n)
      | none => none := by
  rw [process_escape_sequence, h, if_neg (by decide), if_neg (by decide),
    if_pos rfl]

lemma pes_C (s : PState) (csi : List Char) (h : csi.getLast? = some 'C') :
    process_escape_sequence s ('[' :: csi) =
      match (if csi.dropLast = [] then some 1 else pyInt csi.dropLast) with
      | some n => some (move_cursor_forward s n)
      | none => none := by
  rw [process_escape_sequence, h, if_neg (by decide), if_neg (by decide),
    if_neg (by decide), if_pos rfl]

lemma pes_D (s : PState) (csi : List Char) (h : csi.getLast? = some 'D') :
    process_escape_sequence s ('[' :: csi) =
      match (if csi.dropLast = [] then some 1 else pyInt csi.dropLast) with
      | some n => some (move_cursor_backward s n)
      | none => none := by
  rw [process_escape_sequence, h, if_neg (by decide), if_neg (by decide),
    if_neg (by decide), if_neg (by decide), if_pos rfl]

lemma pes_G (s : PState) (csi : List Char) (h : csi.getLast? = some 'G') :
    process_escape_sequence s ('[' :: csi) =
      match (if csi.dropLast = [] then some 1 else pyInt csi.dropLast) with
      | some col =>
        some (ensure_screen_size { s with cursor_col := max 0 (col - 1) }
          s.cursor_row (max 0 (col - 1)))
      | none => none := by
  rw [process_escape_sequence, h, if_neg (by decide), if_neg (by decide),
    if_neg (by decide), if_neg (by decide), if_neg (by decide), if_pos rfl]

lemma pes_K (s : PState) (csi : List Char) (h : csi.getLast? = some 'K') :
    process_escape_sequence s ('[' :: csi) =
      match (if csi.dropLast = [] then some 0 else pyInt csi.dropLast) with
      | some mode => some (clear_line s mode)
      | none => none := by
  rw [process_escape_sequence, h, if_neg (by decide), if_neg (by decide),
    if_neg (by decide), if_neg (by decide), if_neg (by decide),
    if_neg (by decide), if_pos rfl]

lemma pes_J (s : PState) (csi : List Char) (h : csi.getLast? = some 'J') :
    process_escape_sequence s ('[' :: csi) =
      match (if csi.dropLast = [] then some 0 else pyInt csi.dropLast) with
      | some mode => some (clear_screen s mode)
      | none => none := by
  rw [process_escape_sequence, h, if_neg (by decide), if_neg (by decide),
    if_neg (by decide), if_neg (by decide), if_neg (by decide),
    if_neg (by decide), if_neg (by decide), if_pos rfl]

/-- A CSI sequence whose terminator is none of the nine dispatched
letters leaves the state unchanged and raises nothing. -/
lemma pes_noop (s : PState) (csi : List Char) (t : Char)
    (h : csi.getLast? = some t)
    (h9 : t ∉ (['H', 'f', 'A', 'B', 'C', 'D', 'G', 'K', 'J'] : List Char)) :
    process_escape_sequence s ('[' :: csi) = some s := by
  simp only [List.mem_cons, List.not_mem_nil, or_false, not_or] at h9
  obtain ⟨n1, n2, n3, n4, n5, n6, n7, n8, n9⟩ := h9
  rw [process_escape_sequence, h,
    if_neg (by simp [n1, n2]), if_neg (by simp [n3]), if_neg (by simp [n4]),
    if_neg (by simp [n5]), if_neg (by simp [n6]), if_neg (by simp [n7]),
    if_neg (by simp [n8]), if_neg (by simp [n9])]
  split <;> rfl

/-- A sequence not starting with `[` (for example the character-set
designation `ESC ( X`) is ignored entirely. -/
lemma pes_not_bracket (s : PState) (seq : List Char)
    (h : ∀ rest, seq ≠ '[' :: rest) :
    process_escape_sequence s seq = some s := by
  rw [process_escape_sequence.eq_def]
  split
  · next csi => exact absurd rfl (h csi)
  · rfl

/-! ### Claim theorems -/

/-- C9: finalization (`get_final_text`) reads the grid and assigns no
attribute, so as a state transformer it returns the state unchanged, and
calling it again on that returned state yields the identical output. -/
theorem C9_get_final_text_pure (s : PState) :
    (get_final_text_st s).1 = s ∧
    (get_final_text_st ((get_final_text_st s).1)).2 = (get_final_text_st s).2 :=
  ⟨rfl, rfl⟩

/-- C8: an escape marker that matches no escape-sequence grammar is
silently dropped — it is never written, the state at that step is
unchanged, no error is raised, and the rest of the input is processed
exactly as if the marker were absent. -/
theorem C8_unmatched_escape_skipped (s : PState) (rest : List Char)
    (h : matchAnsi ('\x1b' :: rest) = none) :
    processLoop s ('\x1b' :: rest) = processLoop s rest := by
  show processLoopAux (rest.length + 1) s ('\x1b' :: rest)
      = processLoopAux rest.length s rest
  rw [processLoopAux]
  by_cases hr : rest = []
  · subst hr
    simp [processLoopAux]
  · rw [if_pos ⟨rfl, hr⟩, h]

/-- Witness for C8 at the concrete input `ESC X`. -/
theorem C8_witness :
    matchAnsi ('\x1b' :: 'X' :: []) = none ∧
    processLoop initState ('\x1b' :: 'X' :: []) = processLoop initState ('X' :: []) :=
  ⟨by decide, C8_unmatched_escape_skipped initState ('X' :: []) (by decide)⟩

set_option maxRecDepth 100000 in
/-- C2 counterexample: processing `"A\x1b[2K B"` yields `"  B"` — the
cell at column 0 is blanked by `ESC[2K` and the literal space of `" B"`
is written at column 1, so the line carries two leading spaces, not the
single leading space the claim states. -/
theorem C2_counterexample :
    runOut ("A\x1b[2K B".data) = some ("  B".data) ∧
    ("  B".data ≠ " B".data) := by
  exact ⟨by decide, by decide⟩

set_option maxRecDepth 100000 in
/-- C2 (amended): processing `"A\x1b[2K B"` yields the single line
`"  B"`: `ESC[2K` blanks the row (column 0 becomes a space), the
literal `" B"` is written at columns 1–2, leading spaces are preserved
and only trailing whitespace is trimmed. -/
theorem C2_erase_line_scenario :
    runOut ("A\x1b[2K B".data) = some ("  B".data) ∧
    (processLoop initState ("A\x1b[2K B".data)).map
        (fun s' => (cellAt s' 0 0, cellAt s' 0 1, cellAt s' 0 2))
      = some (' ', ' ', 'B') := by
  exact ⟨by decide, by decide⟩

/-- C6: cursor coordinates are nonnegative: they start at (0,0),
Cursor Up and Cursor Backward clamp at 0 for arbitrarily large counts,
and every state reached by processing any input from the initial state
has both coordinates ≥ 0. -/
theorem C6_cursor_never_negative :
    (0 ≤ initState.cursor_row ∧ 0 ≤ initState.cursor_col)
    ∧ (∀ (s : PState) (n : Int), 0 ≤ s.cursor_col →
        0 ≤ (move_cursor_up s n).cursor_row ∧
        0 ≤ (move_cursor_up s n).cursor_col)
    ∧ (∀ (s : PState) (n : Int), 0 ≤ s.cursor_row →
        0 ≤ (move_cursor_backward s n).cursor_row ∧
        0 ≤ (move_cursor_backward s n).cursor_col)
    ∧ (∀ (content : List Char) (s' : PState),
        processLoop initState content = some s' →
        0 ≤ s'.cursor_row ∧ 0 ≤ s'.cursor_col) := by
  refine ⟨⟨le_refl 0, le_refl 0⟩, ?_, ?_, ?_⟩
  · intro s n hc
    exact ⟨le_max_left _ _, hc⟩
  · intro s n hr
    exact ⟨hr, le_max_left _ _⟩
  · intro content s' h
    exact (inv_processLoop initState content s' inv_initState h).2.2.1

/-- Witness for C6: a million-line Cursor Up and Cursor Backward from
the origin, and a processed `ESC[5A` input, all leave the cursor at
nonnegative coordinates. -/
theorem C6_witness :
    (0 ≤ (move_cursor_up initState 1000000).cursor_row ∧
      0 ≤ (move_cursor_up initState 1000000).cursor_col) ∧
    (0 ≤ (move_cursor_backward initState 1000000).cursor_row ∧
      0 ≤ (move_cursor_backward initState 1000000).cursor_col) ∧
    (0 ≤ initState.cursor_row ∧ 0 ≤ initState.cursor_col) :=
  ⟨C6_cursor_never_negative.2.1 initState 1000000 (by decide),
   C6_cursor_never_negative.2.2.1 initState 1000000 (by decide),
   C6_cursor_never_negative.2.2.2 ('\x1b' :: '[' :: '5' :: 'A' :: [])
     initState (by decide)⟩

/-- C1 counterexample: the alternate-private sequence `ESC[?25H` is
recognized by the scanner, yet processing it is not a no-op — the
cursor-position branch calls `int("?25")`, which raises, and the
failure aborts the whole run. -/
theorem C1_counterexample :
    matchAnsi ('\x1b' :: '[' :: '?' :: '2' :: '5' :: 'H' :: []) =
      some ('\x1b' :: '[' :: '?' :: '2' :: '5' :: 'H' :: []) ∧
    process_escape_sequence initState ('[' :: '?' :: '2' :: '5' :: 'H' :: []) = none ∧
    processLoop initState ('\x1b' :: '[' :: '?' :: '2' :: '5' :: 'H' :: []) = none := by
  exact ⟨by decide, by decide, by decide⟩

/-- C1 (amended): every private-mode / alternate-private CSI sequence
`ESC [ ? params letter` is recognized by the scanner; processing it is a
no-op (state unchanged, no error) exactly when the terminating letter is
none of the nine dispatched letters H, f, A, B, C, D, G, K, J; for those
nine the `?` in the parameter field fails integer parsing and the
failure propagates to the caller. -/
theorem C1_private_mode_dispatch (s : PState) (body : List Char) (t : Char)
    (hbody : ∀ ch ∈ body, isCsiParam ch = true) (ht : t.isAlpha = true) :
    matchAnsi ('\x1b' :: '[' :: '?' :: (body ++ [t])) =
      some ('\x1b' :: '[' :: '?' :: (body ++ [t])) ∧
    (t ∉ (['H', 'f', 'A', 'B', 'C', 'D', 'G', 'K', 'J'] : List Char) →
      process_escape_sequence s ('[' :: '?' :: (body ++ [t])) = some s) ∧
    (t ∈ (['H', 'f', 'A', 'B', 'C', 'D', 'G', 'K', 'J'] : List Char) →
      process_escape_sequence s ('[' :: '?' :: (body ++ [t])) = none) := by
  refine ⟨matchAnsi_private body t [] hbody ht, ?_, ?_⟩
  · intro h9
    exact pes_noop s ('?' :: (body ++ [t])) t (getLast?_cons_concat _ _ _) h9
  · intro h9
    have hlast := getLast?_cons_concat '?' body t
    have hdl := dropLast_cons_concat '?' body t
    have hsingle : ∀ u : Char, u = 'A' ∨ u = 'B' ∨ u = 'C' ∨ u = 'D' ∨
        u = 'G' ∨ u = 'K' ∨ u = 'J' → t = u →
        process_escape_sequence s ('[' :: '?' :: (body ++ [t])) = none := by
      intro u hu htu
      subst htu
      rcases hu with rfl | rfl | rfl | rfl | rfl | rfl | rfl
      · rw [pes_A s _ hlast, hdl, if_neg (by simp), pyInt_qmark]
      · rw [pes_B s _ hlast, hdl, if_neg (by simp), pyInt_qmark]
      · rw [pes_C s _ hlast, hdl, if_neg (by simp), pyInt_qmark]
      · rw [pes_D s _ hlast, hdl, if_neg (by simp), pyInt_qmark]
      · rw [pes_G s _ hlast, hdl, if_neg (by simp), pyInt_qmark]
      · rw [pes_K s _ hlast, hdl, if_neg (by simp), pyInt_qmark]
      · rw [pes_J s _ hlast, hdl, if_neg (by simp), pyInt_qmark]
    have hHf : t = 'H' ∨ t = 'f' →
        process_escape_sequence s ('[' :: '?' :: (body ++ [t])) = none := by
      intro htu
      have hlast' : ('?' :: (body ++ [t])).getLast? = some 'H' ∨
          ('?' :: (body ++ [t])).getLast? = some 'f' := by
        rcases htu with rfl | rfl
        · exact Or.inl hlast
        · exact Or.inr hlast
      rcases hsp : splitSemi body with _ | ⟨g, gs⟩
      · exact absurd hsp (splitSemi_ne_nil body)
      have hq : splitSemi ('?' :: body) = ('?' :: g) :: gs := by
        rw [splitSemi, hsp]
        rfl
      rw [pes_Hf_expanded s _ hlast']
      rw [hdl]
      simp only [if_neg (show ¬ ('?' :: body) = [] by simp), hq,
        List.getD_cons_zero]
      rw [if_neg (show ¬ ('?' :: g = []) by simp), pyInt_qmark]
    simp only [List.mem_cons, List.not_mem_nil, or_false] at h9
    rcases h9 with rfl | rfl | h9
    · exact hHf (Or.inl rfl)
    · exact hHf (Or.inr rfl)
    · exact hsingle t (by tauto) rfl

/-- Witness for C1 (amended): `ESC[?25h` is processed as a no-op, while
`ESC[?25H` fails. -/
theorem C1_private_mode_dispatch_witness :
    process_escape_sequence initState ('[' :: '?' :: (['2', '5'] ++ ['h'])) =
      some initState ∧
    process_escape_sequence initState ('[' :: '?' :: (['2', '5'] ++ ['H'])) = none :=
  ⟨(C1_private_mode_dispatch initState ['2', '5'] 'h' (by decide) (by decide)).2.1
      (by decide),
   (C1_private_mode_dispatch initState ['2', '5'] 'H' (by decide) (by decide)).2.2
      (by decide)⟩

/-! ### Where a printable character lands -/

lemma getD_mem {α : Type} (l : List α) (i : Nat) (d : α) (h : i < l.length) :
    l.getD i d ∈ l := by
  have : l.getD i d = l[i] := by
    simp [List.getD, List.getElem?_eq_getElem h]
  rw [this]
  exact List.getElem_mem h

lemma getD_set_self {α : Type} (l : List α) (i : Nat) (a d : α)
    (h : i < l.length) : (l.set i a).getD i d = a := by
  simp [List.getD, List.getElem?_set_self, h]

/-- Writing a printable character stores it at the cursor cell. -/
lemma insert_char_cellAt (s : PState) (ch : Char) (hch : 32 ≤ ch.toNat)
    (hrows : RowsOk s)
    (hr : 0 ≤ s.cursor_row) (hc : 0 ≤ s.cursor_col) :
    cellAt (insert_char s ch) s.cursor_row.toNat s.cursor_col.toNat = ch := by
  have h1 : ch ≠ '\n' := by rintro rfl; exact absurd hch (by decide)
  have h2 : ch ≠ '\r' := by rintro rfl; exact absurd hch (by decide)
  have h3 : ch ≠ '\t' := by rintro rfl; exact absurd hch (by decide)
  rw [insert_char, if_neg h1, if_neg h2, if_neg h3, if_pos hch]
  have her := ensure_cursor_row s s.cursor_row s.cursor_col
  have hec := ensure_cursor_col s s.cursor_row s.cursor_col
  show ((modifyRow (ensure_screen_size s s.cursor_row s.cursor_col).screen
      (ensure_screen_size s s.cursor_row s.cursor_col).cursor_row.toNat
      (fun r => r.set
        (ensure_screen_size s s.cursor_row s.cursor_col).cursor_col.toNat ch)).getD
      s.cursor_row.toNat []).getD s.cursor_col.toNat ' ' = ch
  rw [her, hec]
  have hlen : s.cursor_row.toNat <
      (ensure_screen_size s s.cursor_row s.cursor_col).screen.length :=
    ensure_row_lt_length s _ _ hr
  rw [modifyRow_getD_self _ _ _ hlen]
  apply getD_set_self
  have hmem : (ensure_screen_size s s.cursor_row s.cursor_col).screen.getD
      s.cursor_row.toNat [] ∈
      (ensure_screen_size s s.cursor_row s.cursor_col).screen :=
    getD_mem _ _ _ hlen
  rw [rowsOk_ensure s s.cursor_row s.cursor_col hrows _ hmem]
  exact ensure_col_lt_max_cols s _ _ hc

set_option maxRecDepth 100000 in
/-- C4: `ESC[2J` resets the grid to empty and the cursor to (0,0); a
printable character inserted immediately afterwards lands in cell
(0,0); and the end-to-end run on `"Hello\x1b[2J World"` discards
everything before the clear and outputs exactly `" World"`. -/
theorem C4_full_clear (s : PState) (ch : Char) (hch : 32 ≤ ch.toNat) :
    process_escape_sequence s ('[' :: '2' :: 'J' :: []) =
      some { s with screen := [], cursor_row := 0, cursor_col := 0 } ∧
    cellAt (insert_char
        { s with screen := [], cursor_row := 0, cursor_col := 0 } ch) 0 0 = ch ∧
    runOut ("Hello\x1b[2J World".data) = some (" World".data) := by
  refine ⟨rfl, ?_, by decide⟩
  have h := insert_char_cellAt
    { s with screen := [], cursor_row := 0, cursor_col := 0 } ch hch
    (by intro row hrow; cases hrow) (le_refl 0) (le_refl 0)
  exact h

/-- Witness for C4 at a concrete state and character. -/
theorem C4_witness :
    process_escape_sequence initState ('[' :: '2' :: 'J' :: []) =
      some { initState with screen := [], cursor_row := 0, cursor_col := 0 } ∧
    cellAt (insert_char
        { initState with screen := [], cursor_row := 0, cursor_col := 0 } 'W')
      0 0 = 'W' :=
  ⟨(C4_full_clear initState 'W' (by decide)).1,
   (C4_full_clear initState 'W' (by decide)).2.1⟩

/-! ### Splitting well-formed parameter lists -/

lemma pyInt_some_digits (cs : List Char) (n : Int) (h : pyInt cs = some n) :
    cs ≠ [] ∧ cs.all Char.isDigit = true := by
  rw [pyInt] at h
  split at h
  · next hc => exact hc
  · cases h

lemma digits_no_semi (l : List Char) (h : l.all Char.isDigit = true) :
    ∀ x ∈ l, x ≠ ';' := by
  intro x hx hc
  subst hc
  have := List.all_eq_true.1 h _ hx
  exact absurd this (by decide)

lemma splitSemi_no_semi (l : List Char) (h : ∀ x ∈ l, x ≠ ';') :
    splitSemi l = [l] := by
  induction l with
  | nil => rfl
  | cons c rest ih =>
    rw [splitSemi, ih (fun y hy => h y (List.mem_cons_of_mem _ hy))]
    show (if c = ';' then [[], rest] else [c :: rest]) = [c :: rest]
    exact if_neg (h c (List.mem_cons_self c rest))

lemma splitSemi_append_semi (xs ys : List Char) (h : ∀ x ∈ xs, x ≠ ';') :
    splitSemi (xs ++ ';' :: ys) = xs :: splitSemi ys := by
  induction xs with
  | nil =>
    rw [List.nil_append, splitSemi]
    rcases hsp : splitSemi ys with _ | ⟨g, gs⟩
    · exact absurd hsp (splitSemi_ne_nil ys)
    · show (if (';' = ';') then [] :: g :: gs else (';' :: g) :: gs) = [] :: g :: gs
      exact if_pos rfl
  | cons x xs ih =>
    rw [List.cons_append, splitSemi,
      ih (fun y hy => h y (List.mem_cons_of_mem _ hy))]
    show (if x = ';' then [] :: xs :: splitSemi ys else (x :: xs) :: splitSemi ys)
        = (x :: xs) :: splitSemi ys
    exact if_neg (h x (List.mem_cons_self x _))

set_option maxRecDepth 100000 in
/-- C5: for every absolute-position sequence with terminator `H` or `f`
whose present parameters parse as integers r and c, processing sets the
cursor to the 0-based position (r-1, c-1) clamped at 0 (growing the
grid): with both parameters present (`ESC[r;cH`) the cursor goes to
(r-1, c-1); an omitted column (`ESC[rH`) defaults c to 1, an omitted row
(`ESC[;cH`) defaults r to 1, and with both omitted (`ESC[H`) the cursor
goes to (0,0); the next printable character lands in the addressed
cell; and the end-to-end run `"Line1\x1b[1;1HLine2"` outputs
`"Line2"`. -/
theorem C5_absolute_position (s : PState) (t : Char) (pr pc : List Char)
    (r c : Int) (htHf : t = 'H' ∨ t = 'f') (hrows : RowsOk s)
    (hpr : pyInt pr = some r) (hpc : pyInt pc = some c) :
    process_escape_sequence s ('[' :: ((pr ++ ';' :: pc) ++ [t])) =
      some (set_cursor s (r - 1) (c - 1)) ∧
    process_escape_sequence s ('[' :: (pr ++ [t])) =
      some (set_cursor s (r - 1) 0) ∧
    process_escape_sequence s ('[' :: ((';' :: pc) ++ [t])) =
      some (set_cursor s 0 (c - 1)) ∧
    process_escape_sequence s ('[' :: [t]) = some (set_cursor s 0 0) ∧
    (set_cursor s (r - 1) (c - 1)).cursor_row = max 0 (r - 1) ∧
    (set_cursor s (r - 1) (c - 1)).cursor_col = max 0 (c - 1) ∧
    (∀ ch : Char, 32 ≤ ch.toNat →
      cellAt (insert_char (set_cursor s (r - 1) (c - 1)) ch)
        (max 0 (r - 1)).toNat (max 0 (c - 1)).toNat = ch) ∧
    runOut ("Line1\x1b[1;1HLine2".data) = some ("Line2".data) := by
  have hor : ∀ csi : List Char, csi.getLast? = some t →
      csi.getLast? = some 'H' ∨ csi.getLast? = some 'f' := by
    intro csi h
    rcases htHf with rfl | rfl
    · exact Or.inl h
    · exact Or.inr h
  have hda := pyInt_some_digits pr r hpr
  have hdc := pyInt_some_digits pc c hpc
  have hsplit : splitSemi (pr ++ ';' :: pc) = [pr, pc] := by
    rw [splitSemi_append_semi pr pc (digits_no_semi pr hda.2),
      splitSemi_no_semi pc (digits_no_semi pc hdc.2)]
  have hrow : (set_cursor s (r - 1) (c - 1)).cursor_row = max 0 (r - 1) := by
    rw [set_cursor, ensure_cursor_row]
  have hcol : (set_cursor s (r - 1) (c - 1)).cursor_col = max 0 (c - 1) := by
    rw [set_cursor, ensure_cursor_col]
  refine ⟨?_, ?_, ?_, ?_, hrow, hcol, ?_, by decide⟩
  · -- both parameters present: ESC[r;cH / ESC[r;cf
    rw [pes_Hf_expanded s _ (hor _ (List.getLast?_concat _)),
      List.dropLast_concat]
    simp only [if_neg (show ¬ (pr ++ ';' :: pc = []) by simp), hsplit,
      List.getD_cons_zero, List.getD_cons_succ, List.length_cons,
      List.length_nil]
    rw [if_neg hda.1, if_pos ⟨by omega, hdc.1⟩, hpr, hpc]
  · -- column omitted: ESC[rH sets the cursor to (r-1, 0)
    rw [pes_Hf_expanded s _ (hor _ (List.getLast?_concat _)),
      List.dropLast_concat]
    simp only [if_neg hda.1,
      splitSemi_no_semi pr (digits_no_semi pr hda.2),
      List.getD_cons_zero, List.getD_cons_succ, List.length_cons,
      List.length_nil]
    rw [if_neg (show ¬ ((1 : Nat) < 0 + 1 ∧
        ([] : List (List Char)).getD 0 [] ≠ []) by simp), hpr]
    rfl
  · -- row omitted: ESC[;cH sets the cursor to (0, c-1)
    rw [pes_Hf_expanded s _ (hor _ (List.getLast?_concat _)),
      List.dropLast_concat]
    simp only [if_neg (show ¬ ((';' :: pc) = []) by simp),
      show splitSemi (';' :: pc) = [[], pc] by
        rw [show (';' :: pc) = [] ++ ';' :: pc from rfl,
          splitSemi_append_semi [] pc (by intro x hx; cases hx),
          splitSemi_no_semi pc (digits_no_semi pc hdc.2)],
      List.getD_cons_zero, List.getD_cons_succ, List.length_cons,
      List.length_nil]
    rw [if_pos trivial, if_pos ⟨by omega, hdc.1⟩, hpc]
    rfl
  · -- both omitted: ESC[H sets the cursor to (0, 0)
    rw [pes_Hf_expanded s [t] (hor [t] rfl)]
    rfl
  · intro ch hch
    have h := insert_char_cellAt (set_cursor s (r - 1) (c - 1)) ch hch
      (rowsOk_ensure _ _ _ hrows) (by rw [hrow]; exact le_max_left _ _)
      (by rw [hcol]; exact le_max_left _ _)
    rw [hrow, hcol] at h
    exact h

/-- Witness for C5: `ESC[3;2H`, `ESC[3;2f`, `ESC[5H`, `ESC[;5H` and
`ESC[H` on the fresh state, then `'Z'` written at the addressed cell. -/
theorem C5_witness :
    process_escape_sequence initState ('[' :: ((['3'] ++ ';' :: ['2']) ++ ['H'])) =
      some (set_cursor initState 2 1) ∧
    process_escape_sequence initState ('[' :: ((['3'] ++ ';' :: ['2']) ++ ['f'])) =
      some (set_cursor initState 2 1) ∧
    process_escape_sequence initState ('[' :: (['5'] ++ ['H'])) =
      some (set_cursor initState 4 0) ∧
    process_escape_sequence initState ('[' :: ((';' :: ['5']) ++ ['H'])) =
      some (set_cursor initState 0 4) ∧
    process_escape_sequence initState ('[' :: ['H']) =
      some (set_cursor initState 0 0) ∧
    cellAt (insert_char (set_cursor initState 2 1) 'Z')
      (max 0 (2 : Int)).toNat (max 0 (1 : Int)).toNat = 'Z' := by
  have hH := C5_absolute_position initState 'H' ['3'] ['2'] 3 2 (Or.inl rfl)
    (by intro row hrow; cases hrow) (by decide) (by decide)
  have hf := C5_absolute_position initState 'f' ['3'] ['2'] 3 2 (Or.inr rfl)
    (by intro row hrow; cases hrow) (by decide) (by decide)
  have h5 := C5_absolute_position initState 'H' ['5'] ['5'] 5 5 (Or.inl rfl)
    (by intro row hrow; cases hrow) (by decide) (by decide)
  exact ⟨hH.1, hf.1, h5.2.1, h5.2.2.1, hH.2.2.2.1,
    hH.2.2.2.2.2.2.1 'Z' (by decide)⟩

/-- C3: for every matched single-parameter escape sequence whose
parameter text is present (drawn from the scanner's digit/`;` class)
but fails to parse as an integer — e.g. cursor-up with text `1;2` —
processing fails at once and the failure aborts the whole run; an
absent parameter instead takes the documented default without failing. -/
theorem C3_malformed_parameter (s : PState) (t : Char) (body tail : List Char)
    (ht : t ∈ (['A', 'B', 'C', 'D', 'G', 'K', 'J'] : List Char))
    (hbody : ∀ ch ∈ body, isCsiParam ch = true)
    (hne : body ≠ []) (hfail : pyInt body = none) :
    process_escape_sequence s ('[' :: (body ++ [t])) = none ∧
    processLoop s ('\x1b' :: '[' :: (body ++ t :: tail)) = none ∧
    process_escape_sequence s ('[' :: 'A' :: []) = some (move_cursor_up s 1) ∧
    process_escape_sequence s ('[' :: 'B' :: []) = some (move_cursor_down s 1) ∧
    process_escape_sequence s ('[' :: 'C' :: []) = some (move_cursor_forward s 1) ∧
    process_escape_sequence s ('[' :: 'D' :: []) = some (move_cursor_backward s 1) ∧
    process_escape_sequence s ('[' :: 'K' :: []) = some (clear_line s 0) ∧
    process_escape_sequence s ('[' :: 'J' :: []) = some (clear_screen s 0) := by
  simp only [List.mem_cons, List.not_mem_nil, or_false] at ht
  have hlast : (body ++ [t]).getLast? = some t := List.getLast?_concat _
  have hdl : (body ++ [t]).dropLast = body := List.dropLast_concat
  have h1 : process_escape_sequence s ('[' :: (body ++ [t])) = none := by
    rcases ht with rfl | rfl | rfl | rfl | rfl | rfl | rfl
    · rw [pes_A s _ hlast, hdl, if_neg hne, hfail]
    · rw [pes_B s _ hlast, hdl, if_neg hne, hfail]
    · rw [pes_C s _ hlast, hdl, if_neg hne, hfail]
    · rw [pes_D s _ hlast, hdl, if_neg hne, hfail]
    · rw [pes_G s _ hlast, hdl, if_neg hne, hfail]
    · rw [pes_K s _ hlast, hdl, if_neg hne, hfail]
    · rw [pes_J s _ hlast, hdl, if_neg hne, hfail]
  have htA : t.isAlpha = true := by
    rcases ht with rfl | rfl | rfl | rfl | rfl | rfl | rfl <;> decide
  refine ⟨h1, ?_, rfl, rfl, rfl, rfl, rfl, rfl⟩
  rw [processLoop, List.length_cons, processLoopAux,
    if_pos ⟨rfl, by simp⟩, matchAnsi_csi body t tail hbody htA]
  simp only []
  rw [show List.drop 1 ('\x1b' :: '[' :: (body ++ [t])) = '[' :: (body ++ [t])
      from rfl, h1]

/-- Witness for C3: `ESC[1;2A` (cursor-up with parameter text `1;2`)
fails and aborts the run. -/
theorem C3_witness :
    process_escape_sequence initState ('[' :: (['1', ';', '2'] ++ ['A'])) = none ∧
    processLoop initState ('\x1b' :: '[' :: (['1', ';', '2'] ++ 'A' :: [])) =
      none := by
  have h := C3_malformed_parameter initState 'A' ['1', ';', '2'] []
    (by decide) (by decide) (by decide) (by decide)
  exact ⟨h.1, h.2.1⟩

/-- C7: growing the grid only adds space cells — every previously
written cell keeps its character, every grown position outside the old
bounds reads as a space, the standing width never shrinks, and when
every row has the standing width beforehand the grown grid is again
rectangular at the new width. -/
theorem C7_growth_no_data_loss (s : PState) (r c : Int) (i j : Nat) :
    (i < s.screen.length → j < (s.screen.getD i []).length →
      cellAt (ensure_screen_size s r c) i j = cellAt s i j) ∧
    (¬ (i < s.screen.length ∧ j < (s.screen.getD i []).length) →
      cellAt (ensure_screen_size s r c) i j = ' ') ∧
    s.max_cols ≤ (ensure_screen_size s r c).max_cols ∧
    (RowsOk s → ∀ row ∈ (ensure_screen_size s r c).screen,
      row.length = (ensure_screen_size s r c).max_cols) := by
  refine ⟨?_, ?_, ensure_max_cols_le s r c, fun h => rowsOk_ensure s r c h⟩
  · intro hi hj
    rw [ensure_cellAt, if_pos ⟨hi, hj⟩]
  · intro hij
    rw [ensure_cellAt, if_neg hij]

/-- Witness for C7 on a one-cell grid grown to position (2,5). -/
theorem C7_witness :
    cellAt (ensure_screen_size (PState.mk [['X']] 0 0 1 100) 2 5) 0 0 = 'X' ∧
    cellAt (ensure_screen_size (PState.mk [['X']] 0 0 1 100) 2 5) 1 3 = ' ' := by
  constructor
  · rw [(C7_growth_no_data_loss (PState.mk [['X']] 0 0 1 100) 2 5 0 0).1
      (by decide) (by decide)]
    decide
  · exact (C7_growth_no_data_loss (PState.mk [['X']] 0 0 1 100) 2 5 1 3).2.1
      (by decide)

/-! ### No control characters in cells or output -/

lemma mem_rstrip (l : List Char) (ch : Char) (h : ch ∈ rstrip l) : ch ∈ l := by
  rw [rstrip, List.mem_reverse] at h
  exact List.mem_reverse.1 ((List.dropWhile_sublist pyIsSpace).subset h)

lemma mem_lineOfRow (row : List Char) (ch : Char) (h : ch ∈ lineOfRow row) :
    ch ∈ row := by
  rw [lineOfRow] at h
  have h' := mem_rstrip _ _ h
  split at h'
  · exact List.mem_of_mem_take h'
  · cases h'

lemma mem_dropTrailingEmpties (ls : List (List Char)) (l : List Char)
    (h : l ∈ dropTrailingEmpties ls) : l ∈ ls := by
  rw [dropTrailingEmpties, List.mem_reverse] at h
  exact List.mem_reverse.1 ((List.dropWhile_sublist List.isEmpty).subset h)

lemma mem_intercalate_newline (ls : List (List Char)) (ch : Char)
    (h : ch ∈ List.intercalate ['\n'] ls) : ch = '\n' ∨ ∃ l ∈ ls, ch ∈ l := by
  induction ls with
  | nil =>
    rw [show List.intercalate ['\n'] ([] : List (List Char)) = []
      by simp [List.intercalate]] at h
    cases h
  | cons x xs ih =>
    cases xs with
    | nil =>
      rw [show List.intercalate ['\n'] [x] = x by simp [List.intercalate]] at h
      exact Or.inr ⟨x, List.mem_cons_self x [], h⟩
    | cons y zs =>
      rw [show List.intercalate ['\n'] (x :: y :: zs)
            = x ++ '\n' :: List.intercalate ['\n'] (y :: zs)
          by simp [List.intercalate, List.intersperse]] at h
      rcases List.mem_append.1 h with h1 | h1
      · exact Or.inr ⟨x, List.mem_cons_self x _, h1⟩
      · rcases List.mem_cons.1 h1 with rfl | h2
        · exact Or.inl rfl
        · rcases ih h2 with h3 | ⟨l, hl, hchl⟩
          · exact Or.inl h3
          · exact Or.inr ⟨l, List.mem_cons_of_mem _ hl, hchl⟩

lemma output_clean (s : PState)
    (hcells : ∀ row ∈ s.screen, ∀ c ∈ row, 32 ≤ c.toNat) :
    ∀ ch ∈ get_final_text s, ch = '\n' ∨ 32 ≤ ch.toNat := by
  intro ch hch
  rw [get_final_text] at hch
  rcases mem_intercalate_newline _ _ hch with rfl | ⟨l, hl, hchl⟩
  · exact Or.inl rfl
  · right
    have hl' := mem_dropTrailingEmpties _ _ hl
    rw [List.mem_filterMap] at hl'
    obtain ⟨idx, hidx, hline⟩ := hl'
    split at hline
    · next hlt =>
      cases hline
      exact hcells _ (getD_mem s.screen idx [] hlt) ch (mem_lineOfRow _ _ hchl)
    · cases hline

/-- C10: in every state reachable by processing input on a fresh
processor, every grid cell holds a character of code ≥ 32 (the space,
code 32, is the blank sentinel), so the finalized output contains no
control characters apart from the newline separators. -/
theorem C10_no_control_characters (content : List Char) (s' : PState)
    (h : processLoop initState content = some s') :
    (∀ row ∈ s'.screen, ∀ ch ∈ row, 32 ≤ ch.toNat) ∧
    (∀ ch ∈ get_final_text s', ch = '\n' ∨ 32 ≤ ch.toNat) := by
  have hinv := inv_processLoop initState content s' inv_initState h
  exact ⟨hinv.2.1, output_clean s' hinv.2.1⟩

/-- Witness for C10 at `ESC[5A`, which leaves the processor in its
initial state. -/
theorem C10_witness :
    (∀ row ∈ initState.screen, ∀ ch ∈ row, 32 ≤ ch.toNat) ∧
    (∀ ch ∈ get_final_text initState, ch = '\n' ∨ 32 ≤ ch.toNat) :=
  C10_no_control_characters ('\x1b' :: '[' :: '5' :: 'A' :: []) initState
    (by decide)

end AnsiProc
